import Mathlib

/-
  Verification of the go-rpc dispatch engine (daviddengcn/go-rpc, rpc.go).

  Shallow embedding conventions:
  * Go runtime values that can cross the JSON boundary are `GoValue`; the
    corresponding Go types (used by `reflect.New` for argument allocation)
    are `GoType`.  `vChan` stands for a value `encoding/json` cannot
    marshal (e.g. a channel).
  * A Go `error` is modelled as a `String` (its message); a computation
    that can panic or return an error is `Except String α`, where
    `Except.error` carries the panic / error message.  The code under
    verification contains no `recover`, so a panic propagates through the
    `Except` bind.
  * `encoding/json` is an external collaborator; it is modelled by the
    concrete codec `jsonMarshal` / `jsonUnmarshal` below.  The wire
    envelope (`rpcResponse`) serialisation is modelled as an ideal
    round-trip: an HTTP response body either decodes to an `rpcResponse`
    (`some`) or fails to decode (`none`).
  * `reflect`: a method obtained by reflection is a `GoMethod`, carrying
    the parameter types after the receiver (`tp.In(1..)`), the declared
    number of results (`tp.NumOut()`), and the behaviour of
    `method.Func.Call` on the full argument array (receiver first).
  * The HTTP transport is a function from the posted form data to the
    response; `serverTransport` composes the client with `ServeHTTP`.
-/

namespace Rpc

/-- The form data of an inbound HTTP request: `r.FormValue("method")` and
the repeated field `r.Form["in"]`. -/
structure HttpRequest where
  method : String
  ins : List String
deriving DecidableEq

/-- Go runtime values appearing at the RPC boundary.  `vReq` is a
`*http.Request` value (identified by its form data), `vChan` a value that
`encoding/json` cannot marshal. -/
inductive GoValue where
  | vInt : Int → GoValue
  | vBool : Bool → GoValue
  | vReq : HttpRequest → GoValue
  | vChan : GoValue
deriving DecidableEq

/-- Go types at the RPC boundary, as seen by `reflect`.
`tPtrHttpRequest` is the distinguished `*http.Request` type
(`pHttpRequestType` in rpc.go). -/
inductive GoType where
  | tInt : GoType
  | tBool : GoType
  | tPtrHttpRequest : GoType
  | tChan : GoType
deriving DecidableEq

/-- The zero value `reflect.New(t)` allocates. -/
def zeroValue : GoType → GoValue
  | .tInt => .vInt 0
  | .tBool => .vBool false
  | .tPtrHttpRequest => .vReq ⟨"", []⟩
  | .tChan => .vChan

/-- Decimal digit character for `n < 10`. -/
def digitChar (n : Nat) : Char := Char.ofNat (48 + n)

/-- Numeric value of a decimal digit character, if it is one. -/
def charDigit (c : Char) : Option Nat :=
  if 48 ≤ c.toNat ∧ c.toNat ≤ 57 then some (c.toNat - 48) else none

/-- Accumulating decimal parser over a character list. -/
def parseNatFrom : List Char → Nat → Option Nat
  | [], acc => some acc
  | c :: cs, acc =>
      match charDigit c with
      | none => none
      | some d => parseNatFrom cs (acc * 10 + d)

/-- Decimal parser over a non-empty character list. -/
def parseNat : List Char → Option Nat
  | [] => none
  | c :: cs => parseNatFrom (c :: cs) 0

/-- Parse the JSON representation of an integer. -/
def goParseInt (s : String) : Option Int :=
  match s.data with
  | '-' :: cs => (parseNat cs).map (fun n => -(n : Int))
  | cs => (parseNat cs).map (fun n => (n : Int))

/-- Decimal digits of `n` (with enough fuel in the first argument). -/
def natDigits : Nat → Nat → List Char
  | 0, _ => []
  | fuel + 1, n =>
      if n < 10 then [digitChar n]
      else natDigits fuel (n / 10) ++ [digitChar (n % 10)]

/-- Print an integer the way `encoding/json` renders it. -/
def goPrintInt (n : Int) : String :=
  if n < 0 then String.mk ('-' :: natDigits (n.natAbs + 1) n.natAbs)
  else String.mk (natDigits (n.natAbs + 1) n.natAbs)

/-- Model of `json.Marshal` on boundary values: `none` is a marshal
error (with `json.Marshal` returning nil bytes, so `string(b) = ""`). -/
def jsonMarshal : GoValue → Option String
  | .vInt n => some (goPrintInt n)
  | .vBool b => some (cond b "true" "false")
  | .vReq _ => some "null"
  | .vChan => none

/-- Model of `json.Unmarshal` of a JSON string into a freshly allocated
value of type `t`: `none` is an unmarshal error (the allocated value then
keeps its zero value). -/
def jsonUnmarshal : GoType → String → Option GoValue
  | .tInt, s => (goParseInt s).map GoValue.vInt
  | .tBool, s =>
      if s = "true" then some (.vBool true)
      else if s = "false" then some (.vBool false)
      else none
  | .tPtrHttpRequest, _ => none
  | .tChan, _ => none

/-- Value `v` marshals successfully and unmarshals back to itself at
type `t` (the "encodes and decodes through JSON without loss" premise). -/
def roundtrips (t : GoType) (v : GoValue) : Prop :=
  (jsonMarshal v).isSome = true ∧
    jsonUnmarshal t ((jsonMarshal v).getD "") = some v

instance (t : GoType) (v : GoValue) : Decidable (roundtrips t v) := by
  unfold roundtrips; infer_instance

/-- JSON-encode a list of values, an encode error yielding the empty
string (as in `outJson, _ := json.Marshal(...)`; `string(nil) = ""`). -/
def encodeJsons (vs : List GoValue) : List String :=
  vs.map fun v => (jsonMarshal v).getD ""

/-- Response codes (the `errCode*` constants of rpc.go).  `Ok`. -/
def errCodeOk : Nat := 0

/-- Response code for an unknown method name. -/
def errCodeUnknownMethod : Nat := 1

/-- The wire envelope `rpcResponse`: it has exactly the fields `Code`
and `Outs`. -/
structure rpcResponse where
  Code : Nat
  Outs : List String
deriving DecidableEq

/-- The Go runtime panic message for an out-of-range slice index. -/
def indexOutOfRange : String := "runtime error: index out of range"

/-- A method of the service object as `reflect` presents it:
its name, the parameter types after the receiver (`tp.In(1..)`), the
declared result count (`tp.NumOut()`), and the behaviour of
`method.Func.Call` on the full argument array (receiver first);
`Except.error` is a panic inside the method body. -/
structure GoMethod where
  name : String
  argTypes : List GoType
  numOut : Nat
  impl : List GoValue → Except String (List GoValue)

/-- The service object passed to `NewServer`: its runtime value and its
method set. -/
structure ServiceObject where
  value : GoValue
  methods : List GoMethod

/-- `methodInfo` of rpc.go: the bound callable, the `needRequest` flag
and the input type descriptors.  These are all of its fields. -/
structure methodInfo where
  funcValue : List GoValue → Except String (List GoValue)
  needRequest : Bool := false
  inTypes : List GoType := []

/-- `Server` of rpc.go: the service value and the name → `methodInfo`
map (modelled as an association list; `List.lookup` finds the most
recent insertion first, matching Go map overwrite semantics). -/
structure Server where
  oValue : GoValue
  methods : List (String × methodInfo)

/-- The body of the registration loop of `NewServer` for one method:
`mi := &methodInfo{funcValue: method.Func}`; if there are parameters
beyond the receiver and the first is `*http.Request`, set `needRequest`
and start `inTypes` after it, otherwise `inTypes` is all parameters
after the receiver. -/
def buildMethodInfo (method : GoMethod) : methodInfo :=
  match method.argTypes with
  | [] => { funcValue := method.impl }
  | t :: rest =>
      if t = GoType.tPtrHttpRequest then
        { funcValue := method.impl, needRequest := true, inTypes := rest }
      else
        { funcValue := method.impl, inTypes := t :: rest }

/-- `NewServer`: build the registry from the method set of `o`. -/
def NewServer (o : ServiceObject) : Server :=
  { oValue := o.value
    methods :=
      o.methods.foldl (fun acc method => (method.name, buildMethodInfo method) :: acc) [] }

/-- The argument-decoding loop of `ServeHTTP`: for each input type
descriptor (at position `i`) read `inJsons[i]` — a Go slice index, which
panics when out of range — allocate a zero value and `json.Unmarshal`
into it, ignoring the unmarshal error. -/
def decodeLoop (inJsons : List String) : List GoType → Nat → Except String (List GoValue)
  | [], _ => .ok []
  | t :: ts, i =>
      match inJsons[i]? with
      | none => .error indexOutOfRange
      | some s =>
          match decodeLoop inJsons ts (i + 1) with
          | .error e => .error e
          | .ok rest => .ok (((jsonUnmarshal t s).getD (zeroValue t)) :: rest)

/-- The value list the decoding loop produces when every index is in
range: per position, the decoded value, or the zero value on an
unmarshal error. -/
def decodedArgs (ts : List GoType) (js : List String) : List GoValue :=
  List.zipWith (fun t s => (jsonUnmarshal t s).getD (zeroValue t)) ts js

/-- The tail of `ServeHTTP` after argument assembly: invoke (a panic
propagates — there is no `recover`), JSON-encode each result (encode
errors ignored), and write the `Ok` envelope. -/
def respond (call : Except String (List GoValue)) : Except String rpcResponse :=
  match call with
  | .error e => .error e
  | .ok outs => .ok { Code := errCodeOk, Outs := encodeJsons outs }

/-- `Server.ServeHTTP`: look the method name up; on a miss write the
`UnknownMethod` envelope; otherwise assemble
`[receiver, (request if needRequest), decoded args]`, call, and write
the `Ok` envelope.  `Except.error` is a panic escaping `ServeHTTP`. -/
def ServeHTTP (s : Server) (r : HttpRequest) : Except String rpcResponse :=
  match s.methods.lookup r.method with
  | none => .ok { Code := errCodeUnknownMethod, Outs := [] }
  | some mi =>
      let callArr := [s.oValue] ++ (if mi.needRequest then [GoValue.vReq r] else [])
      match decodeLoop r.ins mi.inTypes 0 with
      | .error e => .error e
      | .ok args => respond (mi.funcValue (callArr ++ args))

/-- An HTTP response as the client sees it: the status code and the
body, the latter modelled post-codec (`none` = the body does not decode
to an `rpcResponse`). -/
structure HttpResponse where
  statusCode : Nat
  body : Option rpcResponse
deriving DecidableEq

/-- The transport round trip `httpClient.PostForm`: from posted form
data to a response, or a transport error. -/
def Transport : Type := HttpRequest → Except String HttpResponse

/-- `Client` of rpc.go: the target URL (the transport handle is passed
to `Call` explicitly in this model). -/
structure Client where
  host : String

/-- One entry of the variadic `inPOuts` list of `Client.Call`: either an
input value, or an output destination — a pointer, carried with its
pointee type and current pointee value. -/
inductive InOut where
  | inV : GoValue → InOut
  | outP : GoType → GoValue → InOut
deriving DecidableEq

/-- `json.Marshal` of one `inPOuts` entry (marshalling a pointer
marshals the pointee). -/
def marshalInOut : InOut → Option String
  | .inV v => jsonMarshal v
  | .outP _ v => jsonMarshal v

/-- The input-encoding loop of `Call`: marshal `inPOuts[i]` for
`i < numIn` (second argument: entries still to marshal), returning the
first marshal error; the index into `inPOuts` panics when out of
range. -/
def marshalIns (inPOuts : List InOut) : Nat → Nat → Except String (List String)
  | _, 0 => .ok []
  | i, k + 1 =>
      match inPOuts[i]? with
      | none => .error indexOutOfRange
      | some io =>
          match marshalInOut io with
          | none => .error "json: unsupported type"
          | some s =>
              match marshalIns inPOuts (i + 1) k with
              | .error e => .error e
              | .ok rest => .ok (s :: rest)

/-- The output-distribution loop of `Call`: for each entry of
`res.Outs`, `json.Unmarshal` it into `inPOuts[numIn+i]` (an index that
panics when out of range; unmarshalling into a non-pointer is a JSON
error), returning the first unmarshal error; on success the destination
holds the decoded value. -/
def writeOuts : List InOut → Nat → List String → Except String (List InOut)
  | inPOuts, _, [] => .ok inPOuts
  | inPOuts, idx, s :: rest =>
      match inPOuts[idx]? with
      | none => .error indexOutOfRange
      | some (.inV _) => .error "json: Unmarshal(non-pointer value)"
      | some (.outP t _) =>
          match jsonUnmarshal t s with
          | none => .error "json: cannot unmarshal value"
          | some v => writeOuts (inPOuts.set idx (.outP t v)) (idx + 1) rest

/-- `Client.Call`: marshal the first `numIn` entries, post the form,
decode the body as an `rpcResponse` (the HTTP status code is never
inspected), fail with the string `Error code: <d>` when the code is not
`Ok`, otherwise distribute `res.Outs` over the remaining entries.  The
result is the final state of `inPOuts` (outputs updated). -/
def Call (c : Client) (transport : Transport) (numIn : Nat) (method : String)
    (inPOuts : List InOut) : Except String (List InOut) :=
  match marshalIns inPOuts 0 numIn with
  | .error e => .error e
  | .ok inJsons =>
      match transport { method := method, ins := inJsons } with
      | .error e => .error e
      | .ok resp =>
          match resp.body with
          | none => .error "invalid character in response body"
          | some res =>
              if res.Code ≠ errCodeOk then
                .error ("Error code: " ++ toString res.Code)
              else
                writeOuts inPOuts numIn res.Outs

/-- The transport obtained by wiring the client directly to a server:
`ServeHTTP` answers with HTTP 200 and the envelope it wrote; a panic
escaping `ServeHTTP` surfaces as a transport error. -/
def serverTransport (s : Server) : Transport := fun req =>
  match ServeHTTP s req with
  | .error e => .error e
  | .ok res => .ok { statusCode := 200, body := some res }

/-! Concrete fixtures: the `Arith` and `bad` service objects of the test
suite, and small services exercising the codec edge cases. -/

/-- The behaviour of `(*Arith).Add(a, b int) int` under `Func.Call`
(receiver first). -/
def addImpl : List GoValue → Except String (List GoValue)
  | [_, .vInt a, .vInt b] => .ok [.vInt (a + b)]
  | _ => .error "reflect: Call with wrong argument count"

/-- The method `Add(a, b int) int` of `*Arith`. -/
def arithAdd : GoMethod := ⟨"Add", [.tInt, .tInt], 1, addImpl⟩

/-- The behaviour of `(*Arith).Sub(r *http.Request, a, b int) int`. -/
def subImpl : List GoValue → Except String (List GoValue)
  | [_, .vReq _, .vInt a, .vInt b] => .ok [.vInt (a - b)]
  | _ => .error "reflect: Call with wrong argument count"

/-- The method `Sub(r *http.Request, a, b int) int` of `*Arith`. -/
def arithSub : GoMethod := ⟨"Sub", [.tPtrHttpRequest, .tInt, .tInt], 1, subImpl⟩

/-- The service object `new(Arith)`. -/
def arithObj : ServiceObject := ⟨.vInt 0, [arithAdd, arithSub]⟩

/-- The server registered for `new(Arith)`. -/
def arithServer : Server := NewServer arithObj

/-- The behaviour of `(*bad).Panic()` from the test suite: the body
immediately raises the fault "Just panic!". -/
def panicImpl : List GoValue → Except String (List GoValue) :=
  fun _ => .error "Just panic!"

/-- The service object `new(bad)`. -/
def badObj : ServiceObject := ⟨.vInt 0, [⟨"Panic", [], 0, panicImpl⟩]⟩

/-- The server registered for `new(bad)`. -/
def badServer : Server := NewServer badObj

/-- The descriptor `NewServer` builds for the `Panic` method. -/
def panicMi : methodInfo := { funcValue := panicImpl }

/-- The form data of a request invoking `Panic` with no inputs. -/
def panicReq : HttpRequest := ⟨"Panic", []⟩

/-- A method `Neg(b bool) bool` used to exercise an argument-decode
failure. -/
def negImpl : List GoValue → Except String (List GoValue)
  | [_, .vBool b] => .ok [.vBool (!b)]
  | _ => .error "reflect: Call with wrong argument count"

/-- A service with the single method `Neg`. -/
def negObj : ServiceObject := ⟨.vInt 0, [⟨"Neg", [.tBool], 1, negImpl⟩]⟩

/-- The server registered for the `Neg` service. -/
def negServer : Server := NewServer negObj

/-- A method `MkChan() chan int` returning a value `encoding/json`
cannot marshal. -/
def chanImpl : List GoValue → Except String (List GoValue) :=
  fun _ => .ok [.vChan]

/-- A service with the single method `MkChan`. -/
def chanObj : ServiceObject := ⟨.vInt 0, [⟨"MkChan", [], 1, chanImpl⟩]⟩

/-- The server registered for the `MkChan` service. -/
def chanServer : Server := NewServer chanObj

/-- A transport answering every request with HTTP 500 and a decodable
`Ok` envelope in the body. -/
def transport500 : Transport :=
  fun _ => .ok { statusCode := 500, body := some { Code := errCodeOk, Outs := [] } }

/-- A stub method body that always raises a fault, used to compare
declared signatures. -/
def stubImpl : List GoValue → Except String (List GoValue) :=
  fun _ => .error "Just panic!"

/-- A service whose method `M` declares one result. -/
def oneOutObj : ServiceObject := ⟨.vInt 0, [⟨"M", [], 1, stubImpl⟩]⟩

/-- A service whose method `M` declares two results. -/
def twoOutObj : ServiceObject := ⟨.vInt 0, [⟨"M", [], 2, stubImpl⟩]⟩

/-! Helper lemmas about the three loops. -/

theorem roundtrips_isSome {t : GoType} {v : GoValue} (h : roundtrips t v) :
    (jsonMarshal v).isSome = true := h.1

theorem marshalIns_shift (k : Nat) : ∀ (i : Nat) (x : InOut) (l : List InOut),
    marshalIns (x :: l) (i + 1) k = marshalIns l i k := by
  induction k with
  | zero => intro i x l; rfl
  | succ k ih =>
      intro i x l
      simp only [marshalIns, List.getElem?_cons_succ, ih]

theorem marshalIns_inputs : ∀ (args : List GoValue) (rest : List InOut),
    (∀ v ∈ args, (jsonMarshal v).isSome = true) →
    marshalIns (args.map InOut.inV ++ rest) 0 args.length = .ok (encodeJsons args) := by
  intro args
  induction args with
  | nil => intro rest _; rfl
  | cons a args ih =>
      intro rest hall
      have ha : (jsonMarshal a).isSome = true := hall a (by simp)
      obtain ⟨s, hs⟩ := Option.isSome_iff_exists.mp ha
      simp only [List.map_cons, List.cons_append, List.length_cons]
      simp only [marshalIns, List.getElem?_cons_zero, marshalInOut, hs,
        marshalIns_shift, ih rest (fun v hv => hall v (by simp [hv]))]
      simp [encodeJsons, hs]

theorem decodeLoop_shift : ∀ (ts : List GoType) (i : Nat) (x : String) (js : List String),
    decodeLoop (x :: js) ts (i + 1) = decodeLoop js ts i := by
  intro ts
  induction ts with
  | nil => intro i x js; rfl
  | cons t ts ih =>
      intro i x js
      simp only [decodeLoop, List.getElem?_cons_succ, ih]

theorem decodeLoop_ok : ∀ (ts : List GoType) (js : List String),
    ts.length ≤ js.length → decodeLoop js ts 0 = .ok (decodedArgs ts js) := by
  intro ts
  induction ts with
  | nil => intro js _; rfl
  | cons t ts ih =>
      intro js hlen
      match js with
      | [] => simp at hlen
      | s :: js =>
          simp only [List.length_cons, Nat.succ_le_succ_iff] at hlen
          simp only [decodeLoop, List.getElem?_cons_zero, decodeLoop_shift, ih js hlen]
          simp [decodedArgs]

theorem decodeLoop_short : ∀ (ts : List GoType) (t : GoType) (js : List String) (i : Nat),
    js.length < i + (t :: ts).length →
    decodeLoop js (t :: ts) i = .error indexOutOfRange := by
  intro ts
  induction ts with
  | nil =>
      intro t js i hlen
      have hnone : js[i]? = none := by
        apply List.getElem?_eq_none
        simp only [List.length_cons, List.length_nil] at hlen
        omega
      simp [decodeLoop, hnone]
  | cons t₂ ts ih =>
      intro t js i hlen
      have hstep : decodeLoop js (t :: t₂ :: ts) i =
          match js[i]? with
          | none => .error indexOutOfRange
          | some s =>
              match decodeLoop js (t₂ :: ts) (i + 1) with
              | .error e => .error e
              | .ok rest => .ok (((jsonUnmarshal t s).getD (zeroValue t)) :: rest) := rfl
      cases hj : js[i]? with
      | none => simp only [hstep, hj]
      | some s =>
          have hrec : decodeLoop js (t₂ :: ts) (i + 1) = .error indexOutOfRange := by
            apply ih
            simp only [List.length_cons] at hlen ⊢
            omega
          simp only [hstep, hj, hrec]

theorem decodedArgs_roundtrip : ∀ (ts : List GoType) (args : List GoValue),
    List.Forall₂ (fun t v => roundtrips t v) ts args →
    decodedArgs ts (encodeJsons args) = args := by
  intro ts args h
  induction h with
  | nil => rfl
  | cons hrt _ ih =>
      simp only [encodeJsons, List.map_cons, decodedArgs, List.zipWith_cons_cons] at ih ⊢
      rw [hrt.2, ih]
      rfl

theorem writeOuts_shift : ∀ (ss : List String) (l : List InOut) (i : Nat) (x : InOut),
    writeOuts (x :: l) (i + 1) ss = (writeOuts l i ss).map (fun res => x :: res) := by
  intro ss
  induction ss with
  | nil => intro l i x; rfl
  | cons s ss ih =>
      intro l i x
      have hstep1 : writeOuts (x :: l) (i + 1) (s :: ss) =
          match (x :: l)[i + 1]? with
          | none => .error indexOutOfRange
          | some (.inV _) => .error "json: Unmarshal(non-pointer value)"
          | some (.outP t _) =>
              match jsonUnmarshal t s with
              | none => .error "json: cannot unmarshal value"
              | some v => writeOuts ((x :: l).set (i + 1) (.outP t v)) (i + 1 + 1) ss := rfl
      have hstep2 : writeOuts l i (s :: ss) =
          match l[i]? with
          | none => .error indexOutOfRange
          | some (.inV _) => .error "json: Unmarshal(non-pointer value)"
          | some (.outP t _) =>
              match jsonUnmarshal t s with
              | none => .error "json: cannot unmarshal value"
              | some v => writeOuts (l.set i (.outP t v)) (i + 1) ss := rfl
      rw [hstep1, hstep2, List.getElem?_cons_succ]
      split
      · rfl
      · rfl
      · rename_i t old heq
        split
        · rfl
        · rename_i v hv
          rw [show (x :: l).set (i + 1) (InOut.outP t v)
                = x :: l.set i (InOut.outP t v) from rfl]
          exact ih (l.set i (.outP t v)) (i + 1) x

theorem writeOuts_prefix : ∀ (pre : List InOut) (l : List InOut) (ss : List String),
    writeOuts (pre ++ l) pre.length ss = (writeOuts l 0 ss).map (fun res => pre ++ res) := by
  intro pre
  induction pre with
  | nil =>
      intro l ss
      simp only [List.nil_append, List.length_nil]
      match writeOuts l 0 ss with
      | .error e => rfl
      | .ok res => rfl
  | cons x pre ih =>
      intro l ss
      simp only [List.cons_append, List.length_cons, writeOuts_shift, ih]
      match writeOuts l 0 ss with
      | .error e => rfl
      | .ok res => rfl

theorem writeOuts_dests : ∀ (dests : List (GoType × GoValue)) (outs : List GoValue),
    List.Forall₂ (fun d v => roundtrips d.1 v) dests outs →
    writeOuts (dests.map fun d => InOut.outP d.1 d.2) 0 (encodeJsons outs)
      = .ok (List.zipWith (fun d v => InOut.outP d.1 v) dests outs) := by
  intro dests outs h
  induction h with
  | nil => rfl
  | @cons d v ds vs hrt _ ih =>
      simp only [encodeJsons, List.map_cons] at ih ⊢
      simp only [writeOuts, List.getElem?_cons_zero, hrt.2, List.set_cons_zero,
        List.zipWith_cons_cons, writeOuts_shift, ih]
      rfl

theorem forall₂_marshal_isSome : ∀ {ts : List GoType} {args : List GoValue},
    List.Forall₂ (fun t v => roundtrips t v) ts args →
    ∀ v ∈ args, (jsonMarshal v).isSome = true := by
  intro ts args h
  induction h with
  | nil => intro v hv; cases hv
  | cons hrt _ ih =>
      intro v hv
      rcases List.mem_cons.mp hv with h1 | h2
      · subst h1; exact hrt.1
      · exact ih v h2

theorem zipWith_getElem? {α β γ : Type} (f : α → β → γ) :
    ∀ (l1 : List α) (l2 : List β) (i : Nat) (a : α) (b : β),
    l1[i]? = some a → l2[i]? = some b →
    (List.zipWith f l1 l2)[i]? = some (f a b) := by
  intro l1
  induction l1 with
  | nil => intro l2 i a b h1 _; simp at h1
  | cons x l1 ih =>
      intro l2 i a b h1 h2
      cases l2 with
      | nil => simp at h2
      | cons y l2 =>
          cases i with
          | zero =>
              simp only [List.getElem?_cons_zero, Option.some.injEq] at h1 h2
              simp [List.zipWith_cons_cons, h1, h2]
          | succ i =>
              simp only [List.getElem?_cons_succ] at h1 h2
              simp only [List.zipWith_cons_cons, List.getElem?_cons_succ]
              exact ih l2 i a b h1 h2

/-! Claim theorems. -/

/-- C1: for a registered method with `k` non-context input descriptors,
any `k` argument values that round-trip through JSON, an invocation of
the bound method on them returning results that round-trip into the
supplied output destinations, a client `Call` with those `k` inputs and
those destinations returns no error, and leaves each destination holding
exactly the corresponding result of invoking the method directly. -/
theorem C1_call_end_to_end (cl : Client) (o : ServiceObject) (name : String)
    (mi : methodInfo) (args outs : List GoValue) (dests : List (GoType × GoValue))
    (hlook : (NewServer o).methods.lookup name = some mi)
    (hin : List.Forall₂ (fun t v => roundtrips t v) mi.inTypes args)
    (hinvoke : mi.funcValue
        (([o.value] ++ (if mi.needRequest
            then [GoValue.vReq { method := name, ins := encodeJsons args }] else []))
          ++ args) = .ok outs)
    (hout : List.Forall₂ (fun d v => roundtrips d.1 v) dests outs) :
    Call cl (serverTransport (NewServer o)) args.length name
        (args.map InOut.inV ++ dests.map fun d => InOut.outP d.1 d.2)
      = .ok (args.map InOut.inV
          ++ List.zipWith (fun d v => InOut.outP d.1 v) dests outs) := by
  have hlen : mi.inTypes.length = args.length := hin.length_eq
  have hserve : ServeHTTP (NewServer o) { method := name, ins := encodeJsons args }
      = .ok { Code := errCodeOk, Outs := encodeJsons outs } := by
    have hdec : decodeLoop (encodeJsons args) mi.inTypes 0 = .ok args := by
      rw [decodeLoop_ok mi.inTypes (encodeJsons args) (by simp [encodeJsons, hlen]),
        decodedArgs_roundtrip mi.inTypes args hin]
    have hoV : (NewServer o).oValue = o.value := rfl
    simp only [ServeHTTP, hlook, hdec, hoV, hinvoke, respond]
  have hwrite : writeOuts (args.map InOut.inV ++ dests.map fun d => InOut.outP d.1 d.2)
      args.length (encodeJsons outs)
      = .ok (args.map InOut.inV
          ++ List.zipWith (fun d v => InOut.outP d.1 v) dests outs) := by
    have hpre := writeOuts_prefix (args.map InOut.inV)
      (dests.map fun d => InOut.outP d.1 d.2) (encodeJsons outs)
    rw [List.length_map] at hpre
    rw [hpre, writeOuts_dests dests outs hout]
    rfl
  simp only [Call,
    marshalIns_inputs args (dests.map fun d => InOut.outP d.1 d.2)
      (forall₂_marshal_isSome hin),
    serverTransport, hserve, hwrite]
  simp [errCodeOk]

/-- C1 (witness): the theorem applied to `Add(1, 2)` of the `Arith`
server with one output destination: the call succeeds and the
destination holds 3, the value `Add` computes directly. -/
theorem C1_call_end_to_end_witness :
    Call { host := "http://localhost:1235" } (serverTransport arithServer) 2 "Add"
        [InOut.inV (.vInt 1), InOut.inV (.vInt 2), InOut.outP .tInt (.vInt 0)]
      = .ok [InOut.inV (.vInt 1), InOut.inV (.vInt 2), InOut.outP .tInt (.vInt 3)] := by
  have h := C1_call_end_to_end { host := "http://localhost:1235" } arithObj "Add"
    (buildMethodInfo arithAdd) [.vInt 1, .vInt 2] [.vInt 3] [(.tInt, .vInt 0)]
    rfl
    (List.Forall₂.cons (by decide) (List.Forall₂.cons (by decide) List.Forall₂.nil))
    rfl
    (List.Forall₂.cons (by decide) List.Forall₂.nil)
  exact h

/-- C2 (counterexample): the dispatcher does not intercept a runtime
fault.  For the `bad` service of the test suite, the fault "Just panic!"
raised inside the invoked method propagates out of `ServeHTTP` — so no
envelope at all is produced (in particular no `Panic` envelope; the code
defines only the codes `Ok` and `UnknownMethod`), refuting the claim at
this concrete input. -/
theorem C2_counterexample :
    ServeHTTP badServer panicReq = .error "Just panic!" := rfl

/-- C2 (amended): there is no fault-containment boundary in `ServeHTTP`:
whenever the invoked method raises a fault, the fault propagates out of
the dispatcher unchanged (no envelope is written), and the dispatcher
defines no `Panic` code. -/
theorem C2_amended_fault_propagates (s : Server) (r : HttpRequest) (mi : methodInfo)
    (args : List GoValue) (msg : String)
    (hlook : s.methods.lookup r.method = some mi)
    (hdec : decodeLoop r.ins mi.inTypes 0 = .ok args)
    (hpanic : mi.funcValue
        (([s.oValue] ++ (if mi.needRequest then [GoValue.vReq r] else [])) ++ args)
      = .error msg) :
    ServeHTTP s r = .error msg := by
  simp only [ServeHTTP, hlook, hdec, hpanic, respond]

/-- C2 (witness): the amended theorem applied to the `bad` service at the
concrete request for `Panic`. -/
theorem C2_amended_fault_propagates_witness :
    decodeLoop panicReq.ins panicMi.inTypes 0 = .ok [] ∧
    ServeHTTP badServer panicReq = .error "Just panic!" :=
  ⟨rfl, C2_amended_fault_propagates badServer panicReq panicMi [] "Just panic!" rfl rfl rfl⟩

/-- C3 (counterexample): the `UnknownMethod` envelope carries no info
field at all — `rpcResponse` has exactly the fields `Code` and `Outs` —
so its content cannot equal the requested method name.  Concretely, the
complete envelopes answered for the two distinct unknown names "X" and
"Y" are identical, refuting "info equals the requested method name". -/
theorem C3_counterexample :
    ServeHTTP arithServer ⟨"X", []⟩ = .ok { Code := errCodeUnknownMethod, Outs := [] } ∧
    ServeHTTP arithServer ⟨"Y", []⟩ = .ok { Code := errCodeUnknownMethod, Outs := [] } ∧
    "X" ≠ "Y" :=
  ⟨rfl, rfl, by decide⟩

/-- C3 (amended): for every request whose method name misses the
registry, the dispatcher answers the fixed envelope
`{Code := UnknownMethod, Outs := []}` — which echoes no requested name —
and no invocation is attempted: the answer is `Except.ok` for every such
server, even when every registered method body would raise a fault. -/
theorem C3_amended_unknown_method (s : Server) (r : HttpRequest)
    (hmiss : s.methods.lookup r.method = none) :
    ServeHTTP s r = .ok { Code := errCodeUnknownMethod, Outs := [] } := by
  simp only [ServeHTTP, hmiss]

/-- C3 (witness): the amended theorem applied to the `Arith` server at
the unregistered name "Xyz". -/
theorem C3_amended_unknown_method_witness :
    ServeHTTP arithServer ⟨"Xyz", []⟩ = .ok { Code := errCodeUnknownMethod, Outs := [] } :=
  C3_amended_unknown_method arithServer ⟨"Xyz", []⟩ rfl

/-- C4: for a method whose first non-receiver parameter is
`*http.Request`, the registry builder sets `needRequest`, excludes that
parameter from `inTypes` (so a call with `k = inTypes.length` inputs
addresses a method with `k + 1` declared non-receiver parameters), and
the dispatcher passes the inbound request value as the first argument
after the receiver. -/
theorem C4_context_param (o : ServiceObject) (r : HttpRequest) (mth : GoMethod)
    (rest : List GoType) (args : List GoValue)
    (hsig : mth.argTypes = GoType.tPtrHttpRequest :: rest)
    (hlook : (NewServer o).methods.lookup r.method = some (buildMethodInfo mth))
    (hdec : decodeLoop r.ins (buildMethodInfo mth).inTypes 0 = .ok args) :
    (buildMethodInfo mth).needRequest = true ∧
    (buildMethodInfo mth).inTypes = rest ∧
    (buildMethodInfo mth).inTypes.length + 1 = mth.argTypes.length ∧
    ServeHTTP (NewServer o) r
      = respond (mth.impl (o.value :: GoValue.vReq r :: args)) := by
  have hmi : buildMethodInfo mth
      = { funcValue := mth.impl, needRequest := true, inTypes := rest } := by
    unfold buildMethodInfo
    rw [hsig]
    simp
  rw [hmi] at hdec
  refine ⟨by rw [hmi], by rw [hmi], by rw [hmi, hsig]; simp, ?_⟩
  simp only [ServeHTTP, hlook, hmi, hdec]
  rfl

/-- C4 (witness): the theorem applied to `Sub(r *http.Request, a, b int)`
of the `Arith` server at the request carrying inputs 2 and 5. -/
theorem C4_context_param_witness :
    (buildMethodInfo arithSub).needRequest = true ∧
    (buildMethodInfo arithSub).inTypes.length + 1 = arithSub.argTypes.length ∧
    ServeHTTP arithServer ⟨"Sub", ["2", "5"]⟩
      = respond (subImpl (GoValue.vInt 0 :: GoValue.vReq ⟨"Sub", ["2", "5"]⟩
          :: [GoValue.vInt 2, GoValue.vInt 5])) := by
  have h := C4_context_param arithObj ⟨"Sub", ["2", "5"]⟩ arithSub [.tInt, .tInt]
    [GoValue.vInt 2, GoValue.vInt 5] rfl rfl rfl
  exact ⟨h.1, h.2.2.1, h.2.2.2⟩

/-- C5: a JSON decode failure of one positional input is not escalated:
the dispatcher still invokes the method, with the failed position left at
its type's zero value (and every position decoded independently). -/
theorem C5_decode_failure_swallowed (s : Server) (r : HttpRequest) (mi : methodInfo)
    (i : Nat) (t : GoType) (str : String)
    (hlook : s.methods.lookup r.method = some mi)
    (hlen : mi.inTypes.length ≤ r.ins.length)
    (ht : mi.inTypes[i]? = some t)
    (hs : r.ins[i]? = some str)
    (hfail : jsonUnmarshal t str = none) :
    ServeHTTP s r
      = respond (mi.funcValue
          (([s.oValue] ++ (if mi.needRequest then [GoValue.vReq r] else []))
            ++ decodedArgs mi.inTypes r.ins)) ∧
    (decodedArgs mi.inTypes r.ins)[i]? = some (zeroValue t) := by
  constructor
  · simp only [ServeHTTP, hlook, decodeLoop_ok mi.inTypes r.ins hlen]
  · unfold decodedArgs
    rw [zipWith_getElem? _ mi.inTypes r.ins i t str ht hs, hfail]
    rfl

/-- C5 (witness): the theorem applied to the `Neg(b bool) bool` service
at the undecodable input string "oops": the call proceeds with the zero
value `false`. -/
theorem C5_decode_failure_swallowed_witness :
    ServeHTTP negServer ⟨"Neg", ["oops"]⟩
      = respond (negImpl [GoValue.vInt 0, GoValue.vBool false]) ∧
    (decodedArgs [GoType.tBool] ["oops"])[0]? = some (zeroValue GoType.tBool) := by
  have h := C5_decode_failure_swallowed negServer ⟨"Neg", ["oops"]⟩
    { funcValue := negImpl, inTypes := [.tBool] } 0 .tBool "oops"
    rfl (by decide) rfl rfl rfl
  exact ⟨h.1, h.2⟩

/-- C6 (counterexample): `Call` never inspects the HTTP status code.  A
round trip answered with HTTP 500 and a decodable `Ok` envelope returns
no error at all — refuting "Call returns a ServerError whose diagnostic
encodes that status" (no `ServerError` code exists in the code). -/
theorem C6_counterexample :
    Call { host := "http://localhost:1235" } transport500 0 "Add" [] = .ok [] := rfl

/-- C6 (amended): the HTTP status code of the response is irrelevant to
`Call`: replacing the status of the transport's answer by any other
value leaves the result of `Call` unchanged; the body alone is
interpreted. -/
theorem C6_amended_status_ignored (cl : Client) (numIn : Nat) (method : String)
    (inPOuts : List InOut) (resp : HttpResponse) (sc : Nat) :
    Call cl (fun _ => .ok resp) numIn method inPOuts
      = Call cl (fun _ => .ok { statusCode := sc, body := resp.body }) numIn method inPOuts := by
  unfold Call
  cases marshalIns inPOuts 0 numIn <;> rfl

/-- C7 (counterexample): the error `Call` returns for a non-`Ok`
envelope is the bare string "Error code: <d>", built from the code
alone; the envelope (`rpcResponse`) has no info field.  Calls failing on
the two distinct unknown names "X" and "Y" — whose diagnostics the claim
requires to differ — return identical errors, refuting "carrying both
that code and the envelope's info diagnostic". -/
theorem C7_counterexample :
    Call { host := "h" } (serverTransport arithServer) 0 "X" [] = .error "Error code: 1" ∧
    Call { host := "h" } (serverTransport arithServer) 0 "Y" [] = .error "Error code: 1" ∧
    "X" ≠ "Y" :=
  ⟨rfl, rfl, by decide⟩

/-- C7 (amended): for every decodable envelope whose code is not `Ok`,
`Call` returns the unstructured error string `"Error code: " ++ code`:
the numeric code is carried (distinct codes remain distinguishable), but
no info diagnostic exists or is carried. -/
theorem C7_amended_code_error (cl : Client) (transport : Transport) (numIn : Nat)
    (method : String) (inPOuts : List InOut) (inJsons : List String)
    (resp : HttpResponse) (res : rpcResponse)
    (hm : marshalIns inPOuts 0 numIn = .ok inJsons)
    (ht : transport { method := method, ins := inJsons } = .ok resp)
    (hb : resp.body = some res)
    (hc : res.Code ≠ errCodeOk) :
    Call cl transport numIn method inPOuts
      = .error ("Error code: " ++ toString res.Code) := by
  simp only [Call, hm, ht, hb, if_pos hc]

/-- C7 (witness): the amended theorem applied to a call of the
unregistered name "Xyz" against the `Arith` server. -/
theorem C7_amended_code_error_witness :
    Call { host := "h" } (serverTransport arithServer) 0 "Xyz" []
      = .error ("Error code: " ++ toString (1 : Nat)) :=
  C7_amended_code_error { host := "h" } (serverTransport arithServer) 0 "Xyz" [] []
    { statusCode := 200, body := some { Code := errCodeUnknownMethod, Outs := [] } }
    { Code := errCodeUnknownMethod, Outs := [] } rfl rfl rfl (by decide)

/-- C8 (counterexample): the registry builder records no output count:
two services whose single method `M` declares one result and two results
respectively (with the same callable) build literally identical
registries, so the method descriptor cannot record the declared return
value count. -/
theorem C8_counterexample :
    NewServer oneOutObj = NewServer twoOutObj ∧
    oneOutObj.methods.map GoMethod.numOut ≠ twoOutObj.methods.map GoMethod.numOut :=
  ⟨rfl, by decide⟩

/-- C8 (amended): the descriptor built for a method consists of the
bound callable, the context flag and the ordered input types only; it is
independent of the method's declared output count (the output list
length is taken from the invocation result at dispatch time, not from
the descriptor). -/
theorem C8_amended_no_out_count (mth : GoMethod) (n : Nat) :
    (buildMethodInfo mth).funcValue = mth.impl ∧
    buildMethodInfo { mth with numOut := n } = buildMethodInfo mth := by
  constructor
  · rcases mth with ⟨name, argTypes, numOut, impl⟩
    cases argTypes with
    | nil => rfl
    | cons t rest =>
        by_cases h : t = GoType.tPtrHttpRequest
        · simp [buildMethodInfo, h]
        · simp [buildMethodInfo, h]
  · rfl

/-- C9: the per-argument decode loop indexes the positional `in` list
with no bounds guard: when the request supplies fewer `in` entries than
the method has input descriptors, `ServeHTTP` itself raises the
out-of-range fault; and the loop completes without that fault exactly
when the `in` count is at least the descriptor count. -/
theorem C9_no_bounds_guard (s : Server) (r : HttpRequest) (mi : methodInfo)
    (hlook : s.methods.lookup r.method = some mi) :
    (r.ins.length < mi.inTypes.length → ServeHTTP s r = .error indexOutOfRange) ∧
    ((∃ args, decodeLoop r.ins mi.inTypes 0 = .ok args) ↔ mi.inTypes.length ≤ r.ins.length) := by
  constructor
  · intro hshort
    cases hts : mi.inTypes with
    | nil => rw [hts] at hshort; simp at hshort
    | cons t ts =>
        have herr : decodeLoop r.ins (t :: ts) 0 = .error indexOutOfRange := by
          apply decodeLoop_short
          rw [hts] at hshort
          simp only [List.length_cons] at hshort ⊢
          omega
        simp only [ServeHTTP, hlook, hts, herr]
  · constructor
    · rintro ⟨args, hok⟩
      by_contra hlt
      push_neg at hlt
      cases hts : mi.inTypes with
      | nil => rw [hts] at hlt; simp at hlt
      | cons t ts =>
          rw [hts] at hok hlt
          rw [decodeLoop_short ts t r.ins 0
            (by simp only [List.length_cons] at hlt ⊢; omega)] at hok
          cases hok
    · intro hle
      exact ⟨decodedArgs mi.inTypes r.ins, decodeLoop_ok mi.inTypes r.ins hle⟩

/-- C9 (witness): the theorem applied to `Add` (two input descriptors)
at a request carrying a single `in` entry: the dispatcher faults with
the out-of-range panic. -/
theorem C9_no_bounds_guard_witness :
    ServeHTTP arithServer ⟨"Add", ["1"]⟩ = .error indexOutOfRange :=
  (C9_no_bounds_guard arithServer ⟨"Add", ["1"]⟩ (buildMethodInfo arithAdd) rfl).1
    (by decide)

/-- C10: result-encoding errors are ignored: when some returned value
fails to marshal, its `Outs` slot is the empty string and the envelope
is still the `Ok` envelope — an unencodable result is never reported as
an error. -/
theorem C10_marshal_error_ignored (s : Server) (r : HttpRequest) (mi : methodInfo)
    (args outs : List GoValue) (i : Nat) (v : GoValue)
    (hlook : s.methods.lookup r.method = some mi)
    (hdec : decodeLoop r.ins mi.inTypes 0 = .ok args)
    (hcall : mi.funcValue
        (([s.oValue] ++ (if mi.needRequest then [GoValue.vReq r] else [])) ++ args)
      = .ok outs)
    (hv : outs[i]? = some v)
    (hfail : jsonMarshal v = none) :
    ServeHTTP s r = .ok { Code := errCodeOk, Outs := encodeJsons outs } ∧
    (encodeJsons outs)[i]? = some "" := by
  constructor
  · simp only [ServeHTTP, hlook, hdec, hcall, respond]
  · unfold encodeJsons
    rw [List.getElem?_map, hv]
    simp [hfail]

/-- C10 (witness): the theorem applied to the `MkChan` service, whose
result is unmarshableable: the envelope is `Ok` with the single slot
equal to the empty string. -/
theorem C10_marshal_error_ignored_witness :
    ServeHTTP chanServer ⟨"MkChan", []⟩
      = .ok { Code := errCodeOk, Outs := encodeJsons [GoValue.vChan] } ∧
    (encodeJsons [GoValue.vChan])[0]? = some "" := by
  have h := C10_marshal_error_ignored chanServer ⟨"MkChan", []⟩
    { funcValue := chanImpl, inTypes := [] } [] [GoValue.vChan] 0 GoValue.vChan
    rfl rfl rfl rfl rfl
  exact ⟨h.1, h.2⟩

end Rpc
